import Mathlib

/-!
Verification of the console transcoding adapter in `src/os/windows/stdio.rs`
(the UTF-8 ↔ UTF-16 write/read transcoders for Windows console handles).

Bytes and UTF-16 code units are modelled as `Nat` (with explicit range
hypotheses where a `u16` bound matters).  The native console primitives
(`WriteConsoleW` / `ReadConsoleW` wrappers `write_u16s` / `read_u16s`) are
modelled as injectable oracles, matching the partial-write / partial-read
failure-injection model of the code.
-/

set_option autoImplicit false

namespace Stdio

/-- The `MAX_BUFFER_SIZE` constant from `stdio.rs`: the 8 KiB cap on console I/O. -/
def MAX_BUFFER_SIZE : Nat := 8192

/-- Whether a byte is a UTF-8 continuation byte (`0x80..=0xBF`). -/
def isCont (b : Nat) : Bool := decide (0x80 ≤ b ∧ b ≤ 0xBF)

/-- Lower bound for the first continuation byte of a multi-byte UTF-8
sequence, per the standard table used by Rust's `str::from_utf8`. -/
def contLo (b0 : Nat) : Nat :=
  if b0 = 0xE0 then 0xA0 else if b0 = 0xF0 then 0x90 else 0x80

/-- Upper bound for the first continuation byte of a multi-byte UTF-8
sequence, per the standard table used by Rust's `str::from_utf8`. -/
def contHi (b0 : Nat) : Nat :=
  if b0 = 0xED then 0x9F else if b0 = 0xF4 then 0x8F else 0xBF

/-- Whether `b1` is a valid first continuation byte after leading byte `b0`. -/
def isCont2 (b0 b1 : Nat) : Bool := decide (contLo b0 ≤ b1 ∧ b1 ≤ contHi b0)

/-- Decode the first UTF-8 scalar from a byte list: returns the scalar value
and the number of bytes it occupies, or `none` if the list does not start
with a valid (complete) UTF-8 sequence.  This is the per-character step of
Rust's `str::from_utf8` validation. -/
def utf8DecodeFirst : List Nat → Option (Nat × Nat)
  | [] => none
  | b0 :: rest =>
    if b0 ≤ 0x7F then some (b0, 1)
    else if 0xC2 ≤ b0 ∧ b0 ≤ 0xDF then
      match rest with
      | b1 :: _ =>
        if isCont b1 then some ((b0 - 0xC0) * 0x40 + (b1 - 0x80), 2) else none
      | [] => none
    else if 0xE0 ≤ b0 ∧ b0 ≤ 0xEF then
      match rest with
      | b1 :: b2 :: _ =>
        if isCont2 b0 b1 && isCont b2 then
          some ((b0 - 0xE0) * 0x1000 + (b1 - 0x80) * 0x40 + (b2 - 0x80), 3)
        else none
      | _ => none
    else if 0xF0 ≤ b0 ∧ b0 ≤ 0xF4 then
      match rest with
      | b1 :: b2 :: b3 :: _ =>
        if isCont2 b0 b1 && isCont b2 && isCont b3 then
          some ((b0 - 0xF0) * 0x40000 + (b1 - 0x80) * 0x1000 +
            (b2 - 0x80) * 0x40 + (b3 - 0x80), 4)
        else none
      | _ => none
    else none

/-- Fuelled length of the longest valid UTF-8 prefix (the fuel is an upper
bound on the number of characters; `l.length` always suffices). -/
def utf8ValidUpToAux : Nat → List Nat → Nat
  | 0, _ => 0
  | fuel + 1, l =>
    match utf8DecodeFirst l with
    | none => 0
    | some (_, n) => n + utf8ValidUpToAux fuel (l.drop n)

/-- Rust's `Utf8Error::valid_up_to` for `str::from_utf8`: the length in bytes
of the longest valid UTF-8 prefix of `l` (equal to `l.length` iff `l` is
valid UTF-8). -/
def utf8ValidUpTo (l : List Nat) : Nat := utf8ValidUpToAux l.length l

/-- Fuelled decoding of the scalar values of the valid UTF-8 prefix. -/
def utf8CharsAux : Nat → List Nat → List Nat
  | 0, _ => []
  | fuel + 1, l =>
    match utf8DecodeFirst l with
    | none => []
    | some (c, n) => c :: utf8CharsAux fuel (l.drop n)

/-- The scalar values (`char`s) of a valid UTF-8 byte list, as iterated by
`str::chars` / `str::encode_utf16`. -/
def utf8DecodeStr (l : List Nat) : List Nat := utf8CharsAux l.length l

/-- UTF-16 encoding of one scalar value (`char::encode_utf16`). -/
def encodeUtf16Char (c : Nat) : List Nat :=
  if c < 0x10000 then [c]
  else [0xD800 + (c - 0x10000) / 0x400, 0xDC00 + (c - 0x10000) % 0x400]

/-- UTF-16 encoding of a list of scalar values (`str::encode_utf16`). -/
def encodeUtf16 (cs : List Nat) : List Nat := (cs.map encodeUtf16Char).flatten

/-- The per-code-unit UTF-8 byte cost used by `write` in `stdio.rs` to
account for a partially transmitted buffer.  NOTE: this transcribes the
source faithfully, including its `0xDCEE..=0xDFFF` low-surrogate range
(the surrounding comment in the source says "Low surrogate"). -/
def utf8CostOfUnit (ch : Nat) : Nat :=
  if ch ≤ 0x007F then 1
  else if 0x0080 ≤ ch ∧ ch ≤ 0x07FF then 2
  else if 0xDCEE ≤ ch ∧ ch ≤ 0xDFFF then 1
  else 3

/-- Sum of the per-unit costs over a written prefix of the UTF-16 buffer. -/
def utf8CountWritten (utf16 : List Nat) : Nat :=
  (utf16.map utf8CostOfUnit).sum

/-- Errors surfaced by the console `write` path. -/
inductive WriteError where
  | invalidData
  | native (e : Nat)
deriving DecidableEq, Repr

/-- The console-mode branch of `write` in `stdio.rs`.

* `data` — the caller's byte slice;
* `mainWrite` — the native `write_u16s` primitive for the main call,
  given the submitted units it returns the number it accepted (a partial
  write accepts fewer than submitted) or a platform error;
Returns the result (number of input bytes accepted, or an error) paired
with the list of units attempted by follow-up writes (`[]` or `[unit]`).
The source discards the follow-up `write_u16s` call's result entirely
(`let _ = ...`) and increments `written` unconditionally, so the
follow-up call's outcome has no observable effect and is not a
parameter. -/
def consoleWrite (data : List Nat) (mainWrite : List Nat → Except Nat Nat) :
    Except WriteError Nat × List Nat :=
  let len := min data.length (MAX_BUFFER_SIZE / 2)
  let considered := data.take len
  let k := utf8ValidUpTo considered
  if k = 0 ∧ considered.length ≠ 0 then
    (Except.error WriteError.invalidData, [])
  else
    let utf8 := considered.take k
    let utf16 := (encodeUtf16 (utf8DecodeStr utf8)).take (MAX_BUFFER_SIZE / 2)
    match mainWrite utf16 with
    | Except.error e => (Except.error (WriteError.native e), [])
    | Except.ok written =>
      if written = utf16.length then (Except.ok utf8.length, [])
      else
        let c := utf16.getD written 0
        if 0xDCEE ≤ c ∧ c ≤ 0xDFFF then
          (Except.ok (utf8CountWritten (utf16.take (written + 1))), [c])
        else
          (Except.ok (utf8CountWritten (utf16.take written)), [])

/-- Whether a code unit is a high surrogate (`0xD800..=0xDBFF`). -/
def isHighSurrogate (c : Nat) : Bool := decide (0xD800 ≤ c ∧ c ≤ 0xDBFF)

/-- Whether a code unit is a low surrogate (`0xDC00..=0xDFFF`). -/
def isLowSurrogate (c : Nat) : Bool := decide (0xDC00 ≤ c ∧ c ≤ 0xDFFF)

/-- Rust's `char::decode_utf16` over a list of code units: each element of
the result is `some scalar` for a decoded character or `none` for an
unpaired surrogate. -/
def decodeUtf16 : List Nat → List (Option Nat)
  | [] => []
  | [u] => if u < 0xD800 ∨ 0xDFFF < u then [some u] else [none]
  | u :: v :: rest =>
    if u < 0xD800 ∨ 0xDFFF < u then some u :: decodeUtf16 (v :: rest)
    else if 0xDC00 ≤ u then none :: decodeUtf16 (v :: rest)
    else if isLowSurrogate v then
      some (0x10000 + (u - 0xD800) * 0x400 + (v - 0xDC00)) :: decodeUtf16 rest
    else none :: decodeUtf16 (v :: rest)

/-- Rust's `char::len_utf8` of a scalar value. -/
def utf8LenOfScalar (c : Nat) : Nat :=
  if c < 0x80 then 1 else if c < 0x800 then 2 else if c < 0x10000 then 3 else 4

/-- The accounting loop of `utf16_to_utf8` in `stdio.rs` applied to the
decoded stream: sums `len_utf8` of each decoded character, failing at the
first unpaired surrogate.  (`Except.error ()` models the `InvalidData`
return.) -/
def sumDecoded : List (Option Nat) → Except Unit Nat
  | [] => Except.ok 0
  | none :: _ => Except.error ()
  | some c :: rest =>
    match sumDecoded rest with
    | Except.error e => Except.error e
    | Except.ok n => Except.ok (utf8LenOfScalar c + n)

/-- Number of UTF-8 bytes the `utf16_to_utf8` loop stores into the caller's
buffer before it stops (at the first decode error, or at the end): the byte
length of the longest decoded prefix. -/
def bytesWritten : List (Option Nat) → Nat
  | [] => 0
  | none :: _ => 0
  | some c :: rest => utf8LenOfScalar c + bytesWritten rest

/-- The function `utf16_to_utf8` from `stdio.rs`: decodes UTF-16 code units to UTF-8,
returning the number of UTF-8 bytes produced or an `InvalidData` error on
any unpaired surrogate. -/
def utf16_to_utf8 (utf16 : List Nat) : Except Unit Nat :=
  sumDecoded (decodeUtf16 utf16)

/-- The function `read_u16s_fixup_surrogates` from `stdio.rs`.

* `slot` — the value of the `SURROGATE` static at entry (`0` = empty);
* `amount` — the requested number of code units;
* `native` — the `read_u16s` primitive: given the number of units it may
  fill, it returns the units actually read (already trimmed of a trailing
  Ctrl-Z sentinel) or a platform error.

Returns the code units retained for decoding (or the propagated native
error) paired with the value of the `SURROGATE` static at exit. -/
def read_u16s_fixup_surrogates (slot : Nat) (amount : Nat)
    (native : Nat → Except Nat (List Nat)) : Except Nat (List Nat) × Nat :=
  let start := if slot ≠ 0 then 1 else 0
  let amt := if slot ≠ 0 ∧ amount = 1 then 2 else amount
  match native (amt - start) with
  | Except.error e => (Except.error e, 0)
  | Except.ok units =>
    let filled := (if slot ≠ 0 then [slot] else []) ++ units
    match filled.getLast? with
    | none => (Except.ok filled, 0)
    | some last =>
      if isHighSurrogate last then (Except.ok filled.dropLast, last)
      else (Except.ok filled, 0)

/-- Errors surfaced by the console `read` path. -/
inductive ReadError where
  | invalidInput
  | invalidData
  | native (e : Nat)
deriving DecidableEq, Repr

/-- The console-mode branch of `<Stdio as Read>::read` in `stdio.rs`.

* `outLen` — the length of the caller's byte buffer `buf`;
* `slot` — the value of the `SURROGATE` static at entry (`0` = empty);
* `native` — the `read_u16s` primitive (see
  `read_u16s_fixup_surrogates`).

Returns the result (number of UTF-8 bytes produced, or an error) paired
with the value of the `SURROGATE` static at exit. -/
def consoleRead (outLen : Nat) (slot : Nat)
    (native : Nat → Except Nat (List Nat)) : Except ReadError Nat × Nat :=
  if outLen = 0 then (Except.ok 0, slot)
  else if outLen < 4 then (Except.error ReadError.invalidInput, slot)
  else
    let amount := min (outLen / 3) (MAX_BUFFER_SIZE / 2)
    match read_u16s_fixup_surrogates slot amount native with
    | (Except.error e, slot') => (Except.error (ReadError.native e), slot')
    | (Except.ok units, slot') =>
      match utf16_to_utf8 units with
      | Except.error _ => (Except.error ReadError.invalidData, slot')
      | Except.ok n => (Except.ok n, slot')

/-- Modelled from the spec: the per-code-unit UTF-8 byte cost table of
§4.2 step 7 — 1 byte for `0x0000..=0x007F`, 2 bytes for `0x0080..=0x07FF`,
1 byte for a low surrogate `0xDC00..=0xDFFF`, 3 bytes otherwise (including
a high surrogate).  To be compared with `utf8CostOfUnit`, which transcribes
the source. -/
def specUtf8CostOfUnit (ch : Nat) : Nat :=
  if ch ≤ 0x007F then 1
  else if 0x0080 ≤ ch ∧ ch ≤ 0x07FF then 2
  else if 0xDC00 ≤ ch ∧ ch ≤ 0xDFFF then 1
  else 3

/-- Modelled from the spec: the byte count the spec's formula assigns to a
transmitted UTF-16 prefix. -/
def specUtf8Count (utf16 : List Nat) : Nat :=
  (utf16.map specUtf8CostOfUnit).sum

/-- Modelled from the spec: the §4.2-step-1 cap on raw bytes considered per
write call, `CAPACITY_UNITS * 2` where `CAPACITY_UNITS = MAX_BUFFER_SIZE / 2`
code units (i.e. 8192 bytes). -/
def specConsideredCap : Nat := (MAX_BUFFER_SIZE / 2) * 2

/-! ### Basic lemmas -/

theorem utf8DecodeFirst_bounds : ∀ {l : List Nat} {c n : Nat},
    utf8DecodeFirst l = some (c, n) → 1 ≤ n ∧ n ≤ l.length := by
  intro l c n h
  rcases l with _ | ⟨b0, _ | ⟨b1, _ | ⟨b2, _ | ⟨b3, t⟩⟩⟩⟩ <;>
      simp only [utf8DecodeFirst] at h <;>
      (repeat' split at h) <;>
      simp_all <;>
      omega

theorem utf8ValidUpToAux_le : ∀ (fuel : Nat) (l : List Nat),
    utf8ValidUpToAux fuel l ≤ l.length := by
  intro fuel
  induction fuel with
  | zero => intro l; simp [utf8ValidUpToAux]
  | succ f ih =>
    intro l
    simp only [utf8ValidUpToAux]
    cases h : utf8DecodeFirst l with
    | none => simp
    | some p =>
      obtain ⟨c, n⟩ := p
      have hb := utf8DecodeFirst_bounds h
      have h2 := ih (l.drop n)
      simp only [List.length_drop] at h2
      show n + utf8ValidUpToAux f (l.drop n) ≤ l.length
      omega

theorem utf8ValidUpTo_le (l : List Nat) : utf8ValidUpTo l ≤ l.length :=
  utf8ValidUpToAux_le _ _

theorem utf8DecodeFirst_ascii (b : Nat) (rest : List Nat) (hb : b ≤ 0x7F) :
    utf8DecodeFirst (b :: rest) = some (b, 1) := by
  simp [utf8DecodeFirst, hb]

theorem utf8ValidUpToAux_ascii : ∀ (fuel : Nat) (l : List Nat),
    l.length ≤ fuel → (∀ b ∈ l, b ≤ 0x7F) → utf8ValidUpToAux fuel l = l.length := by
  intro fuel
  induction fuel with
  | zero =>
    intro l h1 _
    have : l = [] := List.length_eq_zero.mp (Nat.le_zero.mp h1)
    simp [this, utf8ValidUpToAux]
  | succ f ih =>
    intro l h1 h2
    cases l with
    | nil => simp [utf8ValidUpToAux, utf8DecodeFirst]
    | cons b t =>
      have hb : b ≤ 0x7F := h2 b (List.mem_cons_self _ _)
      have ht := ih t (by simp at h1; omega)
        (fun x hx => h2 x (List.mem_cons_of_mem _ hx))
      simp [utf8ValidUpToAux, utf8DecodeFirst_ascii b t hb, ht]
      omega

theorem utf8ValidUpTo_ascii (l : List Nat) (h : ∀ b ∈ l, b ≤ 0x7F) :
    utf8ValidUpTo l = l.length :=
  utf8ValidUpToAux_ascii _ _ (Nat.le_refl _) h

theorem utf8CharsAux_ascii : ∀ (fuel : Nat) (l : List Nat),
    l.length ≤ fuel → (∀ b ∈ l, b ≤ 0x7F) → utf8CharsAux fuel l = l := by
  intro fuel
  induction fuel with
  | zero =>
    intro l h1 _
    have : l = [] := List.length_eq_zero.mp (Nat.le_zero.mp h1)
    simp [this, utf8CharsAux]
  | succ f ih =>
    intro l h1 h2
    cases l with
    | nil => simp [utf8CharsAux, utf8DecodeFirst]
    | cons b t =>
      have hb : b ≤ 0x7F := h2 b (List.mem_cons_self _ _)
      have ht := ih t (by simp at h1; omega)
        (fun x hx => h2 x (List.mem_cons_of_mem _ hx))
      simp [utf8CharsAux, utf8DecodeFirst_ascii b t hb, ht]

theorem utf8DecodeStr_ascii (l : List Nat) (h : ∀ b ∈ l, b ≤ 0x7F) :
    utf8DecodeStr l = l :=
  utf8CharsAux_ascii _ _ (Nat.le_refl _) h

theorem encodeUtf16_ascii (l : List Nat) (h : ∀ b ∈ l, b ≤ 0x7F) :
    encodeUtf16 l = l := by
  induction l with
  | nil => simp [encodeUtf16]
  | cons b t ih =>
    have hb : b ≤ 0x7F := h b (List.mem_cons_self _ _)
    have ht := ih (fun x hx => h x (List.mem_cons_of_mem _ hx))
    simp only [encodeUtf16, List.map_cons, List.flatten_cons] at *
    rw [ht, encodeUtf16Char, if_pos (by omega : b < 0x10000)]
    simp

/-- Behavior of the console write path on all-ASCII input with a fully
accepting native primitive: exactly the first
`min data.length (MAX_BUFFER_SIZE / 2)` bytes are considered and accepted. -/
theorem consoleWrite_ascii (data : List Nat) (h : ∀ b ∈ data, b ≤ 0x7F) :
    (consoleWrite data (fun us => Except.ok us.length)).1
      = Except.ok (min data.length (MAX_BUFFER_SIZE / 2)) := by
  set m := min data.length (MAX_BUFFER_SIZE / 2) with hm
  have hml : m ≤ data.length := by rw [hm]; omega
  have hcons : (data.take m).length = m := by
    simp [List.length_take]; omega
  have hA : ∀ b ∈ data.take m, b ≤ 0x7F :=
    fun b hb => h b (List.take_subset _ _ hb)
  have hk : utf8ValidUpTo (data.take m) = m := by
    rw [utf8ValidUpTo_ascii _ hA, hcons]
  have hm4096 : m ≤ MAX_BUFFER_SIZE / 2 := by rw [hm]; omega
  simp only [consoleWrite, hk, hcons]
  by_cases hz : m = 0
  · simp [hz, hk, List.take_nil, utf8DecodeStr, utf8CharsAux, encodeUtf16,
      utf8ValidUpTo, utf8ValidUpToAux]
  · have hne : ¬(m = 0 ∧ m ≠ 0) := by omega
    rw [if_neg (by simp [hcons])]
    have htk : (data.take m).take m = data.take m := by
      apply List.take_of_length_le
      omega
    rw [htk, utf8DecodeStr_ascii _ hA, encodeUtf16_ascii _ hA,
      List.take_of_length_le (by omega : (data.take m).length ≤ MAX_BUFFER_SIZE / 2)]
    simp [hcons]

theorem utf8LenOfScalar_le_three {c : Nat} (h : c < 0x10000) :
    utf8LenOfScalar c ≤ 3 := by
  simp only [utf8LenOfScalar]
  repeat' split
  all_goals omega

theorem utf8LenOfScalar_le_four (c : Nat) : utf8LenOfScalar c ≤ 4 := by
  simp only [utf8LenOfScalar]
  repeat' split
  all_goals omega

theorem sumDecoded_error_of_mem : ∀ {ds : List (Option Nat)},
    none ∈ ds → sumDecoded ds = Except.error () := by
  intro ds h
  induction ds with
  | nil => simp at h
  | cons d t ih =>
    cases d with
    | none => simp [sumDecoded]
    | some c =>
      have : none ∈ t := by
        rcases List.mem_cons.mp h with h' | h'
        · exact absurd h'.symm (by simp)
        · exact h'
      simp [sumDecoded, ih this]

theorem sumDecoded_ok_bytesWritten : ∀ {ds : List (Option Nat)} {n : Nat},
    sumDecoded ds = Except.ok n → bytesWritten ds = n := by
  intro ds
  induction ds with
  | nil => intro n h; simp [sumDecoded] at h; simp [bytesWritten, h]
  | cons d t ih =>
    intro n h
    cases d with
    | none => simp [sumDecoded] at h
    | some c =>
      simp only [sumDecoded] at h
      cases ht : sumDecoded t with
      | error e => rw [ht] at h; simp at h
      | ok m =>
        rw [ht] at h
        simp at h
        simp [bytesWritten, ih ht]
        omega

theorem bytesWritten_decode_le_aux : ∀ (fuel : Nat) (l : List Nat),
    l.length ≤ fuel → (∀ u ∈ l, u < 0x10000) →
    bytesWritten (decodeUtf16 l) ≤ 3 * l.length := by
  intro fuel
  induction fuel with
  | zero =>
    intro l h1 _
    have : l = [] := List.length_eq_zero.mp (Nat.le_zero.mp h1)
    simp [this, decodeUtf16, bytesWritten]
  | succ f ih =>
    intro l h1 h2
    match l with
    | [] => simp [decodeUtf16, bytesWritten]
    | [u] =>
      have hu : u < 0x10000 := h2 u (List.mem_cons_self _ _)
      have hle := utf8LenOfScalar_le_three hu
      simp only [decodeUtf16]
      split <;> (simp [bytesWritten]; try omega)
    | u :: v :: rest =>
      have hu : u < 0x10000 := h2 u (List.mem_cons_self _ _)
      have ihtail := ih (v :: rest) (by simp at h1 ⊢; omega)
        (fun x hx => h2 x (List.mem_cons_of_mem _ hx))
      simp only [decodeUtf16]
      split
      · have hle := utf8LenOfScalar_le_three hu
        simp only [bytesWritten, List.length_cons] at ihtail ⊢
        omega
      · split
        · simp [bytesWritten]
        · split
          · have ihrest := ih rest (by simp at h1; omega)
              (fun x hx => h2 x (List.mem_cons_of_mem _ (List.mem_cons_of_mem _ hx)))
            have hle := utf8LenOfScalar_le_four
              (0x10000 + (u - 0xD800) * 0x400 + (v - 0xDC00))
            simp only [bytesWritten, List.length_cons]
            omega
          · simp [bytesWritten]

theorem bytesWritten_decode_le (l : List Nat) (h : ∀ u ∈ l, u < 0x10000) :
    bytesWritten (decodeUtf16 l) ≤ 3 * l.length :=
  bytesWritten_decode_le_aux _ _ (Nat.le_refl _) h

theorem bytesWritten_decode_high (h : Nat) (r : List Nat)
    (hh : 0xD800 ≤ h ∧ h ≤ 0xDBFF) (hr : ∀ u ∈ r, u < 0x10000) :
    bytesWritten (decodeUtf16 (h :: r)) ≤ 1 + 3 * r.length := by
  match r with
  | [] =>
    simp only [decodeUtf16]
    rw [if_neg (by omega)]
    simp [bytesWritten]
  | v :: rest' =>
    simp only [decodeUtf16]
    rw [if_neg (by omega), if_neg (by omega)]
    split
    · have := bytesWritten_decode_le rest'
        (fun x hx => hr x (List.mem_cons_of_mem _ hx))
      have hle := utf8LenOfScalar_le_four
        (0x10000 + (h - 0xD800) * 0x400 + (v - 0xDC00))
      simp only [bytesWritten, List.length_cons]
      omega
    · simp [bytesWritten]

theorem take_min_length (l : List Nat) (C : Nat) :
    l.take (min l.length C) = l.take C := by
  rcases Nat.le_total l.length C with h | h
  · rw [min_eq_left h, List.take_of_length_le (Nat.le_refl _),
      List.take_of_length_le h]
  · rw [min_eq_right h]

end Stdio


open Stdio

/-! ### Claims -/

/-- C1: the claim says a partial write's returned byte count sums, per
transmitted code unit, 1 byte for a low surrogate in `0xDC00..=0xDFFF` (so
that a surrogate pair costs 4).  The code instead charges low surrogates in
`0xDC00..=0xDCED` 3 bytes (its range test reads `0xDCEE`), contradicting
its own "Low surrogate" comments and its `debug_assert`.  Failing input:
the 5 bytes `F0 90 80 80 61` (UTF-8 for "𐀀a", UTF-16
`[0xD800, 0xDC00, 0x61]`) with a native write accepting K = 2 of 3 units:
the write returns `Ok 6` — more bytes than the 5-byte input — where the
spec's cost table gives 4. -/
theorem C1_partial_write_count_bug :
    (consoleWrite [0xF0, 0x90, 0x80, 0x80, 0x61]
        (fun us => Except.ok (min 2 us.length))).1 = Except.ok 6 ∧
    specUtf8Count ((encodeUtf16
        (utf8DecodeStr [0xF0, 0x90, 0x80, 0x80, 0x61])).take 2) = 4 ∧
    [0xF0, 0x90, 0x80, 0x80, 0x61].length = 5 :=
  ⟨rfl, rfl, rfl⟩

/-- C2: the claim says that whenever the unit at index `written` is a low
surrogate in `0xDC00..=0xDFFF`, exactly one follow-up single-unit native
write of that unit is attempted.  The code's range test reads
`0xDCEE..=0xDFFF`, so for the failing input below (UTF-16
`[0xD800, 0xDC00]`, native write accepting 1 of 2 units) the unit at index
1 is the low surrogate `0xDC00` yet the follow-up trace is empty — no
follow-up write is attempted — and the call returns `Ok 3` (half a
surrogate pair accounted).  For a low surrogate the code's test does catch
(`0xDCEE`, from U+100EE), exactly one follow-up write of that unit is
attempted and counted (final conjunct) — but `written` is incremented
whether or not the follow-up write succeeds (`let _ = ...; written += 1`),
further contradicting the claim's only-on-success clause. -/
theorem C2_follow_up_write_bug :
    consoleWrite [0xF0, 0x90, 0x80, 0x80]
        (fun us => Except.ok (min 1 us.length)) = (Except.ok 3, []) ∧
    (encodeUtf16 (utf8DecodeStr [0xF0, 0x90, 0x80, 0x80])).getD 1 0 = 0xDC00 ∧
    isLowSurrogate 0xDC00 = true ∧
    consoleWrite [0xF0, 0x90, 0x83, 0xAE]
        (fun us => Except.ok (min 1 us.length)) = (Except.ok 4, [0xDCEE]) :=
  ⟨rfl, rfl, rfl, rfl⟩

theorem consoleWrite_invalidData_iff (data : List Nat)
    (f : List Nat → Except Nat Nat) :
    (consoleWrite data f).1 = Except.error WriteError.invalidData ↔
    (utf8ValidUpTo (data.take (min data.length (MAX_BUFFER_SIZE / 2))) = 0 ∧
      (data.take (min data.length (MAX_BUFFER_SIZE / 2))).length ≠ 0) := by
  simp only [consoleWrite]
  split
  · rename_i hcond
    simpa using hcond
  · rename_i hcond
    refine iff_of_false ?_ hcond
    split
    · simp
    · split
      · simp
      · split
        · simp
        · simp

/-- C7: for every input byte slice considered by a console-mode write (the
first `min(bytes.len(), MAX_BUFFER_SIZE / 2)` bytes): if the considered
prefix is valid UTF-8 it is used whole; if it becomes invalid at offset
`k > 0`, the call proceeds with the `k`-byte valid prefix and does not
fail (with a fully accepting native primitive it accepts exactly `k`
bytes); and for any native primitive the call fails with `InvalidData`
iff the considered prefix is nonempty and has zero valid leading UTF-8
bytes. -/
theorem C7_graceful_utf8_validation (data : List Nat) :
    (utf8ValidUpTo (data.take (min data.length (MAX_BUFFER_SIZE / 2)))
        = (data.take (min data.length (MAX_BUFFER_SIZE / 2))).length →
      (consoleWrite data (fun us => Except.ok us.length)).1
        = Except.ok (data.take (min data.length (MAX_BUFFER_SIZE / 2))).length) ∧
    (0 < utf8ValidUpTo (data.take (min data.length (MAX_BUFFER_SIZE / 2))) →
      (consoleWrite data (fun us => Except.ok us.length)).1
        = Except.ok
          (utf8ValidUpTo (data.take (min data.length (MAX_BUFFER_SIZE / 2))))) ∧
    (∀ f : List Nat → Except Nat Nat,
      (consoleWrite data f).1 = Except.error WriteError.invalidData ↔
      (utf8ValidUpTo (data.take (min data.length (MAX_BUFFER_SIZE / 2))) = 0 ∧
        data.take (min data.length (MAX_BUFFER_SIZE / 2)) ≠ [])) := by
  refine ⟨?_, ?_, ?_⟩
  · intro hk
    have hcond : ¬(utf8ValidUpTo (data.take (min data.length (MAX_BUFFER_SIZE / 2))) = 0 ∧
        (data.take (min data.length (MAX_BUFFER_SIZE / 2))).length ≠ 0) := by omega
    simp only [consoleWrite, if_neg hcond]
    simp [hk, List.take_length]
  · intro hk
    have hcond : ¬(utf8ValidUpTo (data.take (min data.length (MAX_BUFFER_SIZE / 2))) = 0 ∧
        (data.take (min data.length (MAX_BUFFER_SIZE / 2))).length ≠ 0) := by omega
    have hle := utf8ValidUpTo_le (data.take (min data.length (MAX_BUFFER_SIZE / 2)))
    simp only [consoleWrite, if_neg hcond]
    simp [List.length_take, Nat.min_eq_left hle]
    rw [List.length_take] at hle
    omega
  · intro f
    rw [consoleWrite_invalidData_iff]
    have : (data.take (min data.length (MAX_BUFFER_SIZE / 2))).length ≠ 0 ↔
        data.take (min data.length (MAX_BUFFER_SIZE / 2)) ≠ [] := by
      rw [not_iff_not, List.length_eq_zero]
    rw [this]

/-- Witness for C7 at concrete inputs: a fully valid prefix, a prefix
invalid at offset 1, and input with zero valid leading bytes. -/
theorem C7_graceful_utf8_validation_witness :
    (consoleWrite [0x61, 0x62] (fun us => Except.ok us.length)).1
      = Except.ok 2 ∧
    (consoleWrite [0x61, 0xFF, 0x62] (fun us => Except.ok us.length)).1
      = Except.ok 1 ∧
    (consoleWrite [0xFF, 0x61] (fun us => Except.ok us.length)).1
      = Except.error WriteError.invalidData := by
  refine ⟨?_, ?_, ?_⟩
  · have h := (C7_graceful_utf8_validation [0x61, 0x62]).1 (by decide)
    simpa using h
  · have h := (C7_graceful_utf8_validation [0x61, 0xFF, 0x62]).2.1 (by decide)
    simpa using h
  · exact ((C7_graceful_utf8_validation [0xFF, 0x61]).2.2
      (fun us => Except.ok us.length)).mpr (by decide)

/-- C3 counterexample: the claim says the cap on raw bytes considered per
console write call is `CAPACITY_UNITS * 2 = 8192`.  On an 8192-byte ASCII
input with a fully accepting native primitive the write accepts only 4096
bytes: the code's cap is `MAX_BUFFER_SIZE / 2 = 4096`, not 8192. -/
theorem C3_cap_counterexample :
    (consoleWrite (List.replicate 8192 0x61)
        (fun us => Except.ok us.length)).1 = Except.ok 4096 ∧
    min (List.replicate (α := Nat) 8192 0x61).length specConsideredCap = 8192 ∧
    (4096 : Nat) ≠ 8192 := by
  refine ⟨?_, by rw [List.length_replicate]; decide, by decide⟩
  have h := consoleWrite_ascii (List.replicate 8192 0x61)
    (fun b hb => by rw [List.eq_of_mem_replicate hb]; decide)
  rw [List.length_replicate] at h
  rw [h]
  congr 1

/-- C3 (amended): for every input byte slice, the console write path
considers at most `min(bytes.len(), CAPACITY_UNITS)` leading bytes per
call, where `CAPACITY_UNITS = MAX_BUFFER_SIZE / 2 = 4096` code units: the
cap on raw bytes considered per call is 4096 bytes (the UTF-16 unit
capacity expressed as an equal count of bytes).  Stated as (i) the result
depends only on the first `MAX_BUFFER_SIZE / 2` bytes, and (ii) on ASCII
input with a fully accepting native primitive, exactly
`min(bytes.len(), MAX_BUFFER_SIZE / 2)` bytes are accepted. -/
theorem C3_considered_cap_amended :
    (∀ (data data' : List Nat) (f : List Nat → Except Nat Nat),
      data.take (MAX_BUFFER_SIZE / 2) = data'.take (MAX_BUFFER_SIZE / 2) →
      consoleWrite data f = consoleWrite data' f) ∧
    (∀ data : List Nat, (∀ b ∈ data, b ≤ 0x7F) →
      (consoleWrite data (fun us => Except.ok us.length)).1
        = Except.ok (min data.length (MAX_BUFFER_SIZE / 2))) := by
  constructor
  · intro data data' f h
    have hd : data.take (min data.length (MAX_BUFFER_SIZE / 2))
        = data'.take (min data'.length (MAX_BUFFER_SIZE / 2)) := by
      rw [take_min_length, take_min_length, h]
    simp only [consoleWrite, hd]
  · exact consoleWrite_ascii

/-- Witness for C3 (amended) at concrete inputs. -/
theorem C3_considered_cap_amended_witness :
    consoleWrite (List.replicate 4097 0x61) (fun us => Except.ok us.length)
      = consoleWrite (List.replicate 4096 0x61)
        (fun us => Except.ok us.length) ∧
    (consoleWrite (List.replicate 10 0x61)
        (fun us => Except.ok us.length)).1 = Except.ok (min 10 4096) := by
  constructor
  · refine C3_considered_cap_amended.1 _ _ _ ?_
    rw [List.take_replicate, List.take_replicate,
      show min (MAX_BUFFER_SIZE / 2) 4097 = min (MAX_BUFFER_SIZE / 2) 4096 from by decide]
  · have h := C3_considered_cap_amended.2 (List.replicate 10 0x61)
      (fun b hb => by rw [List.eq_of_mem_replicate hb]; decide)
    rw [List.length_replicate] at h
    rw [h]
    congr 1

/-- Analysis of `read_u16s_fixup_surrogates` when the native read succeeds
with units `us`: the call returns `Ok`, and either the exit slot is empty
and all filled units (restored pending unit, then `us`) are retained, or
the exit slot holds a high surrogate which was the final filled unit and
is excluded from the retained units. -/
theorem fixup_ok_analysis (slot amount : Nat) (us : List Nat) :
    ∃ retained slot',
      read_u16s_fixup_surrogates slot amount (fun _ => Except.ok us)
        = (Except.ok retained, slot') ∧
      ((slot' = 0 ∧ retained = (if slot ≠ 0 then [slot] else []) ++ us) ∨
       (0xD800 ≤ slot' ∧ slot' ≤ 0xDBFF ∧
        (if slot ≠ 0 then [slot] else []) ++ us = retained ++ [slot'])) := by
  simp only [read_u16s_fixup_surrogates]
  split
  · exact ⟨_, _, rfl, Or.inl ⟨rfl, rfl⟩⟩
  · rename_i last hl
    split
    · rename_i hh
      refine ⟨_, _, rfl, Or.inr ⟨?_, ?_, ?_⟩⟩
      · simp [isHighSurrogate] at hh; omega
      · simp [isHighSurrogate] at hh; omega
      · exact (List.dropLast_append_getLast? last hl).symm
    · exact ⟨_, _, rfl, Or.inl ⟨rfl, rfl⟩⟩

/-- C4: pending-surrogate slot lifecycle.  The slot (the `SURROGATE`
static, `0` = empty) is cleared by the atomic swap at the start of every
console read that reaches the native-read step — in particular, after a
native read error the slot is empty even if it was occupied at entry.
When the read succeeds the slot is set at most once, at the end: it is
nonzero only if it holds a high surrogate (`0xD800..=0xDBFF`) that was the
final code unit of the data read, and that unit is excluded from the
retained units decoded into the caller's buffer. -/
theorem C4_pending_slot_lifecycle (slot amount : Nat) (us : List Nat) :
    (∀ e, read_u16s_fixup_surrogates slot amount (fun _ => Except.error e)
        = (Except.error e, 0)) ∧
    (∀ retained slot',
      read_u16s_fixup_surrogates slot amount (fun _ => Except.ok us)
        = (Except.ok retained, slot') →
      (slot' = 0 ∧ retained = (if slot ≠ 0 then [slot] else []) ++ us) ∨
      (0xD800 ≤ slot' ∧ slot' ≤ 0xDBFF ∧
        (if slot ≠ 0 then [slot] else []) ++ us = retained ++ [slot'])) := by
  constructor
  · intro e
    rfl
  · intro retained slot' h
    obtain ⟨r0, s0, heq, hprop⟩ := fixup_ok_analysis slot amount us
    have h2 := h.symm.trans heq
    rw [Prod.mk.injEq, Except.ok.injEq] at h2
    obtain ⟨ha, hb⟩ := h2
    subst ha
    subst hb
    exact hprop

/-- Witness for C4: a native error clears the slot; a read whose data ends
in the high surrogate `0xD801` stores it in the slot and retains nothing. -/
theorem C4_pending_slot_lifecycle_witness :
    read_u16s_fixup_surrogates 0 5 (fun _ => Except.error 7)
      = (Except.error 7, 0) ∧
    (((0xD801 : Nat) = 0 ∧
        ([] : List Nat) = (if (0 : Nat) ≠ 0 then [(0 : Nat)] else []) ++ [0xD801]) ∨
      ((0xD800 : Nat) ≤ 0xD801 ∧ (0xD801 : Nat) ≤ 0xDBFF ∧
        (if (0 : Nat) ≠ 0 then [(0 : Nat)] else []) ++ [0xD801]
          = [] ++ [(0xD801 : Nat)])) :=
  ⟨(C4_pending_slot_lifecycle 0 5 [0xD801]).1 7,
   (C4_pending_slot_lifecycle 0 5 [0xD801]).2 [] 0xD801 rfl⟩

/-- C5: a console-mode read with an empty destination buffer returns
`Ok 0` immediately, and a nonempty destination buffer of fewer than 4
bytes always fails with `InvalidInput`; in both fast paths the native
read primitive is never invoked (the result does not depend on it) and
the pending slot is untouched. -/
theorem C5_small_buffer_fast_paths (slot n : Nat)
    (f g : Nat → Except Nat (List Nat)) :
    consoleRead 0 slot f = (Except.ok 0, slot) ∧
    (n ≠ 0 → n < 4 →
      consoleRead n slot f = (Except.error ReadError.invalidInput, slot)) ∧
    (n < 4 → consoleRead n slot f = consoleRead n slot g) := by
  refine ⟨rfl, ?_, ?_⟩
  · intro h1 h2
    simp [consoleRead, h1, h2]
  · intro h
    by_cases hz : n = 0
    · subst hz
      rfl
    · simp [consoleRead, hz, h]

/-- Witness for C5 at `n = 3` with distinct native oracles. -/
theorem C5_small_buffer_fast_paths_witness :
    consoleRead 0 9 (fun _ => Except.ok [1]) = (Except.ok 0, 9) ∧
    consoleRead 3 9 (fun _ => Except.ok [1])
      = (Except.error ReadError.invalidInput, 9) ∧
    consoleRead 3 9 (fun _ => Except.ok [1])
      = consoleRead 3 9 (fun _ => Except.error 5) :=
  ⟨(C5_small_buffer_fast_paths 9 3 (fun _ => Except.ok [1])
      (fun _ => Except.error 5)).1,
   (C5_small_buffer_fast_paths 9 3 (fun _ => Except.ok [1])
      (fun _ => Except.error 5)).2.1 (by decide) (by decide),
   (C5_small_buffer_fast_paths 9 3 (fun _ => Except.ok [1])
      (fun _ => Except.error 5)).2.2 (by decide)⟩

/-- C6: a console-mode read with `4 ≤ out.len()` requests
`amount = min(out.len() / 3, MAX_BUFFER_SIZE / 2)` UTF-16 code units,
bumped to 2 when a pending surrogate was restored into index 0 and
`amount = 1`; the native primitive is asked for `amount - start` units
(`start = 1` iff a pending unit was restored).  Stated as: (i) the read
consults the native primitive only at that request count, and (ii) with a
native primitive that reports its request count as an error code, the
reported count is exactly the claimed one. -/
theorem C6_read_request_amount (outLen slot : Nat)
    (f g : Nat → Except Nat (List Nat)) (h4 : 4 ≤ outLen)
    (hfg : f ((if slot ≠ 0 ∧ min (outLen / 3) (MAX_BUFFER_SIZE / 2) = 1 then 2
          else min (outLen / 3) (MAX_BUFFER_SIZE / 2))
        - (if slot ≠ 0 then 1 else 0))
      = g ((if slot ≠ 0 ∧ min (outLen / 3) (MAX_BUFFER_SIZE / 2) = 1 then 2
          else min (outLen / 3) (MAX_BUFFER_SIZE / 2))
        - (if slot ≠ 0 then 1 else 0))) :
    consoleRead outLen slot f = consoleRead outLen slot g ∧
    consoleRead outLen slot (fun k => Except.error k)
      = (Except.error (ReadError.native
          ((if slot ≠ 0 ∧ min (outLen / 3) (MAX_BUFFER_SIZE / 2) = 1 then 2
            else min (outLen / 3) (MAX_BUFFER_SIZE / 2))
          - (if slot ≠ 0 then 1 else 0))), 0) := by
  constructor
  · simp only [consoleRead, read_u16s_fixup_surrogates, hfg]
  · simp only [consoleRead, read_u16s_fixup_surrogates]
    rw [if_neg (by omega), if_neg (by omega)]

/-- Witness for C6: `out.len() = 4` with a pending high surrogate — the
bumped amount is 2, and with `start = 1` the native primitive is asked for
exactly 1 unit. -/
theorem C6_read_request_amount_witness :
    consoleRead 4 0xD800 (fun _ => Except.ok [])
      = consoleRead 4 0xD800 (fun k => if k = 1 then Except.ok [] else Except.ok [9]) ∧
    consoleRead 4 0xD800 (fun k => Except.error k)
      = (Except.error (ReadError.native 1), 0) :=
  C6_read_request_amount 4 0xD800 (fun _ => Except.ok [])
    (fun k => if k = 1 then Except.ok [] else Except.ok [9]) (by decide) rfl

/-- C8: if the UTF-16 data retained by a console-mode read (after the
final-high-surrogate deferral) contains an unpaired surrogate or any other
non-decodable sequence (i.e. `decode_utf16` yields an error item), the
read fails with `InvalidData`: the call returns an error rather than a
count of the bytes decoded before the failure. -/
theorem C8_decode_failure_is_fatal (outLen slot : Nat)
    (us retained : List Nat) (slotOut : Nat) (h4 : 4 ≤ outLen)
    (hfix : read_u16s_fixup_surrogates slot
        (min (outLen / 3) (MAX_BUFFER_SIZE / 2)) (fun _ => Except.ok us)
      = (Except.ok retained, slotOut))
    (herr : none ∈ decodeUtf16 retained) :
    consoleRead outLen slot (fun _ => Except.ok us)
      = (Except.error ReadError.invalidData, slotOut) := by
  simp only [consoleRead]
  rw [if_neg (by omega), if_neg (by omega), hfix]
  simp [utf16_to_utf8, sumDecoded_error_of_mem herr]

/-- Witness for C8: an unpaired low surrogate read into a 6-byte buffer. -/
theorem C8_decode_failure_is_fatal_witness :
    consoleRead 6 0 (fun _ => Except.ok [0xDC00])
      = (Except.error ReadError.invalidData, 0) :=
  C8_decode_failure_is_fatal 6 0 [0xDC00] [0xDC00] 0 (by decide) rfl
    (by decide)

/-- C9: a console-mode read that starts with a pending high surrogate and
whose native read returns zero code units (end of stream) returns `Ok 0`
and stores the high surrogate back into the pending-surrogate slot: the
pending surrogate is neither delivered to the caller nor reported as an
error at end of stream. -/
theorem C9_pending_surrogate_at_eof (outLen slot : Nat) (h4 : 4 ≤ outLen)
    (hs : 0xD800 ≤ slot ∧ slot ≤ 0xDBFF) :
    consoleRead outLen slot (fun _ => Except.ok []) = (Except.ok 0, slot) := by
  have hne : slot ≠ 0 := by omega
  simp only [consoleRead, read_u16s_fixup_surrogates]
  rw [if_neg (by omega), if_neg (by omega)]
  simp [hne, isHighSurrogate, hs.1, hs.2, utf16_to_utf8, sumDecoded,
    decodeUtf16]

/-- Witness for C9 at a 4-byte buffer and pending surrogate `0xD800`. -/
theorem C9_pending_surrogate_at_eof_witness :
    consoleRead 4 0xD800 (fun _ => Except.ok []) = (Except.ok 0, 0xD800) :=
  C9_pending_surrogate_at_eof 4 0xD800 (by decide) (by decide)

/-- Core byte-count bound: the units retained by
`read_u16s_fixup_surrogates` decode (even partially, up to the first
error) to at most `outLen` UTF-8 bytes, given the request-count bound on
the native units and the slot invariant. -/
theorem retainedBytesBound (outLen slot : Nat) (us retained : List Nat)
    (slotOut : Nat) (h4 : 4 ≤ outLen)
    (hslot : slot = 0 ∨ (0xD800 ≤ slot ∧ slot ≤ 0xDBFF))
    (hus : ∀ u ∈ us, u < 0x10000)
    (hlen : us.length ≤
      (if slot ≠ 0 ∧ min (outLen / 3) (MAX_BUFFER_SIZE / 2) = 1 then 2
        else min (outLen / 3) (MAX_BUFFER_SIZE / 2))
      - (if slot ≠ 0 then 1 else 0))
    (hprop : (slotOut = 0 ∧ retained = (if slot ≠ 0 then [slot] else []) ++ us) ∨
       (0xD800 ≤ slotOut ∧ slotOut ≤ 0xDBFF ∧
        (if slot ≠ 0 then [slot] else []) ++ us = retained ++ [slotOut])) :
    bytesWritten (decodeUtf16 retained) ≤ outLen := by
  set m := min (outLen / 3) (MAX_BUFFER_SIZE / 2) with hm
  have hX : 1 ≤ MAX_BUFFER_SIZE / 2 := by decide
  have hm1 : 1 ≤ m := by omega
  have hm3 : 3 * m ≤ outLen := by omega
  rcases hslot with hs0 | hs1
  · -- no pending surrogate: at most m units retained, each ≤ 3 bytes
    subst hs0
    simp only [ne_eq, not_true_eq_false, false_and, if_false, ite_false,
      Nat.sub_zero, List.nil_append] at hlen hprop
    rcases hprop with ⟨-, hr⟩ | ⟨-, -, hr⟩
    · rw [hr]
      have := bytesWritten_decode_le us hus
      omega
    · have hmem : ∀ u ∈ retained, u < 0x10000 := by
        intro u hu
        exact hus u (hr ▸ List.mem_append_left _ hu)
      have hlr : retained.length + 1 = us.length := by
        have := congrArg List.length hr
        simpa using this.symm
      have := bytesWritten_decode_le retained hmem
      omega
  · -- pending high surrogate restored at index 0
    have hne : slot ≠ 0 := by omega
    have hsl : slot < 0x10000 := by omega
    simp only [ne_eq, hne, not_false_eq_true, true_and, if_true,
      List.singleton_append] at hlen hprop
    by_cases hb : m = 1
    · -- the bumped case: amount 2, at most 1 native unit
      rw [if_pos hb] at hlen
      rcases hprop with ⟨-, hr⟩ | ⟨-, -, hr⟩
      · rw [hr]
        have := bytesWritten_decode_high slot us hs1 hus
        omega
      · match retained, hr with
        | [], _ => simp [decodeUtf16, bytesWritten]
        | r0 :: rtail, hr =>
          rw [List.cons_append, List.cons.injEq] at hr
          obtain ⟨hr0, hrt⟩ := hr
          have hmem : ∀ u ∈ rtail, u < 0x10000 := by
            intro u hu
            exact hus u (hrt ▸ List.mem_append_left _ hu)
          have hlr : rtail.length + 1 = us.length := by
            have := congrArg List.length hrt
            simpa using this.symm
          have := bytesWritten_decode_high r0 rtail (hr0 ▸ hs1) hmem
          omega
    · -- amount ≥ 2: at most m units retained in total
      rw [if_neg (by simp [hb])] at hlen
      have husl : ∀ u ∈ slot :: us, u < 0x10000 := by
        intro u hu
        rcases List.mem_cons.mp hu with h | h
        · omega
        · exact hus u h
      rcases hprop with ⟨-, hr⟩ | ⟨-, -, hr⟩
      · rw [hr]
        have := bytesWritten_decode_le (slot :: us) husl
        simp only [List.length_cons] at this
        omega
      · have hmem : ∀ u ∈ retained, u < 0x10000 := by
          intro u hu
          exact husl u (hr ▸ List.mem_append_left _ hu)
        have hlr : retained.length + 1 = us.length + 1 := by
          have := congrArg List.length hr
          simpa using this.symm
        have := bytesWritten_decode_le retained hmem
        omega

/-- C10: a console-mode read that returns `Ok n` satisfies
`n ≤ out.len()`, and the UTF-16→UTF-8 decoding step never produces more
bytes than fit in the caller's buffer: for any native result of at most
the requested number of units (`amount = min(out.len() / 3,
MAX_BUFFER_SIZE / 2)`, bumped to 2 with a restored pending surrogate when
`amount = 1`), the bytes stored by the decode loop — even the partial
bytes stored before a decode error — total at most `out.len()`. -/
theorem C10_decoded_bytes_fit (outLen slot : Nat) (us : List Nat)
    (h4 : 4 ≤ outLen)
    (hslot : slot = 0 ∨ (0xD800 ≤ slot ∧ slot ≤ 0xDBFF))
    (hus : ∀ u ∈ us, u < 0x10000)
    (hlen : us.length ≤
      (if slot ≠ 0 ∧ min (outLen / 3) (MAX_BUFFER_SIZE / 2) = 1 then 2
        else min (outLen / 3) (MAX_BUFFER_SIZE / 2))
      - (if slot ≠ 0 then 1 else 0)) :
    (∀ n slotOut,
      consoleRead outLen slot (fun _ => Except.ok us) = (Except.ok n, slotOut) →
      n ≤ outLen) ∧
    (∀ retained slotOut,
      read_u16s_fixup_surrogates slot (min (outLen / 3) (MAX_BUFFER_SIZE / 2))
          (fun _ => Except.ok us) = (Except.ok retained, slotOut) →
      bytesWritten (decodeUtf16 retained) ≤ outLen) := by
  have hbound : ∀ retained slotOut,
      read_u16s_fixup_surrogates slot (min (outLen / 3) (MAX_BUFFER_SIZE / 2))
          (fun _ => Except.ok us) = (Except.ok retained, slotOut) →
      bytesWritten (decodeUtf16 retained) ≤ outLen := by
    intro retained slotOut hfix
    obtain ⟨r0, s0, heq, hprop⟩ :=
      fixup_ok_analysis slot (min (outLen / 3) (MAX_BUFFER_SIZE / 2)) us
    have h2 := hfix.symm.trans heq
    rw [Prod.mk.injEq, Except.ok.injEq] at h2
    obtain ⟨ha, hb⟩ := h2
    subst ha
    subst hb
    exact retainedBytesBound outLen slot us retained slotOut h4 hslot hus
      hlen hprop
  refine ⟨?_, hbound⟩
  intro n slotOut h
  simp only [consoleRead] at h
  rw [if_neg (by omega), if_neg (by omega)] at h
  rcases hfix : read_u16s_fixup_surrogates slot
      (min (outLen / 3) (MAX_BUFFER_SIZE / 2)) (fun _ => Except.ok us)
    with ⟨res, slotF⟩
  rw [hfix] at h
  cases res with
  | error e => simp at h
  | ok retained =>
    dsimp only at h
    rcases hdec : utf16_to_utf8 retained with he | nBytes
    · rw [hdec] at h
      simp at h
    · rw [hdec] at h
      simp only [Prod.mk.injEq, Except.ok.injEq] at h
      obtain ⟨hn, hsl⟩ := h
      subst hn
      subst hsl
      have := sumDecoded_ok_bytesWritten hdec
      have hb := hbound retained slotF hfix
      omega

/-- Witness for C10: 4-byte buffer, pending high surrogate completed by a
low surrogate — exactly 4 bytes are produced, filling the buffer. -/
theorem C10_decoded_bytes_fit_witness :
    consoleRead 4 0xD800 (fun _ => Except.ok [0xDC00]) = (Except.ok 4, 0) ∧
    (4 : Nat) ≤ 4 ∧
    bytesWritten (decodeUtf16 [0xD800, 0xDC00]) ≤ 4 :=
  ⟨rfl,
   (C10_decoded_bytes_fit 4 0xD800 [0xDC00] (by decide)
      (Or.inr (by decide)) (by decide) (by decide)).1 4 0 rfl,
   (C10_decoded_bytes_fit 4 0xD800 [0xDC00] (by decide)
      (Or.inr (by decide)) (by decide) (by decide)).2 [0xD800, 0xDC00] 0 rfl⟩
